import Mathlib

/-
  Verification of the pose-resolution core of the `christmas-tree` scene.

  The development shallowly embeds, over the real numbers:
  * the THREE.js vector/quaternion primitives the components call
    (`Vector3.applyQuaternion`, `applyMatrix4`, `lerp`, `Quaternion.slerp`,
    `Object3D.lookAt`, `rotateY`),
  * the mode derivation of `Experience.tsx`,
  * the per-frame target resolver and interpolation step of `PolaroidItem`,
  * the spiral anchor generation of `Polaroids`,
  * the snow vertex shader's wrap/wind arithmetic,
  * the click guard of `PolaroidItem` and the upload filter of `UIOverlay`.
-/

noncomputable section

namespace ChristmasTree

/-! ## THREE.js primitives -/

/-- A 3-component vector, mirroring `THREE.Vector3`. -/
@[ext] structure Vec3 where
  x : ℝ
  y : ℝ
  z : ℝ

/-- A quaternion (x, y, z, w), mirroring `THREE.Quaternion`. -/
@[ext] structure Quat where
  x : ℝ
  y : ℝ
  z : ℝ
  w : ℝ

/-- A 4×4 matrix stored column-major as in `THREE.Matrix4.elements`. -/
structure Mat4 where
  e0 : ℝ
  e1 : ℝ
  e2 : ℝ
  e3 : ℝ
  e4 : ℝ
  e5 : ℝ
  e6 : ℝ
  e7 : ℝ
  e8 : ℝ
  e9 : ℝ
  e10 : ℝ
  e11 : ℝ
  e12 : ℝ
  e13 : ℝ
  e14 : ℝ
  e15 : ℝ

/-- `THREE.Vector3.add`. -/
def Vec3.add (a b : Vec3) : Vec3 := ⟨a.x + b.x, a.y + b.y, a.z + b.z⟩

/-- `THREE.Vector3.sub`. -/
def Vec3.sub (a b : Vec3) : Vec3 := ⟨a.x - b.x, a.y - b.y, a.z - b.z⟩

/-- `THREE.Vector3.multiplyScalar`. -/
def Vec3.smul (v : Vec3) (s : ℝ) : Vec3 := ⟨v.x * s, v.y * s, v.z * s⟩

/-- `THREE.Vector3.cross` (`crossVectors`). -/
def Vec3.cross (a b : Vec3) : Vec3 :=
  ⟨a.y * b.z - a.z * b.y, a.z * b.x - a.x * b.z, a.x * b.y - a.y * b.x⟩

/-- `THREE.Vector3.lengthSq`. -/
def Vec3.lengthSq (v : Vec3) : ℝ := v.x * v.x + v.y * v.y + v.z * v.z

/-- `THREE.Vector3.length`. -/
def Vec3.length (v : Vec3) : ℝ := Real.sqrt v.lengthSq

/-- `THREE.Vector3.normalize`: `divideScalar(length() || 1)` — the zero vector
is left unchanged. -/
def Vec3.normalize (v : Vec3) : Vec3 :=
  let l := if v.length = 0 then 1 else v.length
  ⟨v.x / l, v.y / l, v.z / l⟩

/-- `THREE.Vector3.applyQuaternion`: `t = 2·(q.xyz × v)`;
`v' = v + q.w·t + q.xyz × t`. -/
def Vec3.applyQuaternion (q : Quat) (v : Vec3) : Vec3 :=
  let tx := 2 * (q.y * v.z - q.z * v.y)
  let ty := 2 * (q.z * v.x - q.x * v.z)
  let tz := 2 * (q.x * v.y - q.y * v.x)
  ⟨v.x + q.w * tx + (q.y * tz - q.z * ty),
   v.y + q.w * ty + (q.z * tx - q.x * tz),
   v.z + q.w * tz + (q.x * ty - q.y * tx)⟩

/-- `THREE.Vector3.applyMatrix4` (includes the perspective divide). -/
def Vec3.applyMatrix4 (m : Mat4) (v : Vec3) : Vec3 :=
  let w := 1 / (m.e3 * v.x + m.e7 * v.y + m.e11 * v.z + m.e15)
  ⟨(m.e0 * v.x + m.e4 * v.y + m.e8 * v.z + m.e12) * w,
   (m.e1 * v.x + m.e5 * v.y + m.e9 * v.z + m.e13) * w,
   (m.e2 * v.x + m.e6 * v.y + m.e10 * v.z + m.e14) * w⟩

/-- `THREE.Vector3.lerp`: `this += (v - this) * alpha`.  Note that THREE.js
does not clamp `alpha`. -/
def lerpV (p target : Vec3) (alpha : ℝ) : Vec3 :=
  ⟨p.x + (target.x - p.x) * alpha,
   p.y + (target.y - p.y) * alpha,
   p.z + (target.z - p.z) * alpha⟩

/-- `THREE.Quaternion.multiplyQuaternions a b` (Hamilton product). -/
def Quat.mul (a b : Quat) : Quat :=
  ⟨a.x * b.w + a.w * b.x + a.y * b.z - a.z * b.y,
   a.y * b.w + a.w * b.y + a.z * b.x - a.x * b.z,
   a.z * b.w + a.w * b.z + a.x * b.y - a.y * b.x,
   a.w * b.w - a.x * b.x - a.y * b.y - a.z * b.z⟩

/-- `THREE.Quaternion.normalize` (length 0 yields the identity quaternion). -/
def Quat.normalize (q : Quat) : Quat :=
  let l := Real.sqrt (q.x * q.x + q.y * q.y + q.z * q.z + q.w * q.w)
  if l = 0 then ⟨0, 0, 0, 1⟩ else ⟨q.x / l, q.y / l, q.z / l, q.w / l⟩

/-- `THREE.Quaternion.setFromAxisAngle` (axis assumed normalized). -/
def quatAxisAngle (axis : Vec3) (angle : ℝ) : Quat :=
  let s := Real.sin (angle / 2)
  ⟨axis.x * s, axis.y * s, axis.z * s, Real.cos (angle / 2)⟩

/-- `THREE.Object3D.rotateY` applied to a bare quaternion:
post-multiplication by the local Y-axis rotation. -/
def rotateYQuat (q : Quat) (angle : ℝ) : Quat :=
  q.mul (quatAxisAngle ⟨0, 1, 0⟩ angle)

/-- The four-branch quaternion extraction of
`THREE.Quaternion.setFromRotationMatrix`, taking the nine basis entries
(`m11 … m33`, row-major mathematical indexing). -/
def quatFromRotationMatrix (m11 m12 m13 m21 m22 m23 m31 m32 m33 : ℝ) : Quat :=
  let trace := m11 + m22 + m33
  if 0 < trace then
    let s := 0.5 / Real.sqrt (trace + 1)
    ⟨(m32 - m23) * s, (m13 - m31) * s, (m21 - m12) * s, 0.25 / s⟩
  else if m22 < m11 ∧ m33 < m11 then
    let s := 2 * Real.sqrt (1 + m11 - m22 - m33)
    ⟨0.25 * s, (m12 + m21) / s, (m13 + m31) / s, (m32 - m23) / s⟩
  else if m33 < m22 then
    let s := 2 * Real.sqrt (1 + m22 - m11 - m33)
    ⟨(m12 + m21) / s, 0.25 * s, (m23 + m32) / s, (m13 - m31) / s⟩
  else
    let s := 2 * Real.sqrt (1 + m33 - m11 - m22)
    ⟨(m13 + m31) / s, (m23 + m32) / s, 0.25 * s, (m21 - m12) / s⟩

/-- The default `Object3D.up`. -/
def upY : Vec3 := ⟨0, 1, 0⟩

/-- `THREE.Object3D.lookAt` for a non-camera object: build the basis of
`Matrix4.lookAt(targetPoint, objPos, up)` (so the object's +Z axis points
from `objPos` toward `targetPoint`, including the degenerate-direction
fallbacks) and read the quaternion back with `setFromRotationMatrix`. -/
def lookAtQuat (objPos targetPoint up : Vec3) : Quat :=
  let z0 := targetPoint.sub objPos
  let z1 := if z0.lengthSq = 0 then ⟨z0.x, z0.y, 1⟩ else z0
  let z2 := z1.normalize
  let x0 := up.cross z2
  let zx : Vec3 × Vec3 :=
    if x0.lengthSq = 0 then
      let z2b : Vec3 := if |up.z| = 1 then ⟨z2.x + 0.0001, z2.y, z2.z⟩
                 else ⟨z2.x, z2.y, z2.z + 0.0001⟩
      let z3 := z2b.normalize
      (z3, up.cross z3)
    else (z2, x0)
  let zf := zx.1
  let xf := zx.2.normalize
  let yf := zf.cross xf
  quatFromRotationMatrix xf.x yf.x zf.x xf.y yf.y zf.y xf.z yf.z zf.z

/-- `Math.atan2`. -/
def atan2 (y x : ℝ) : ℝ :=
  if 0 < x then Real.arctan (y / x)
  else if x < 0 then
    (if 0 ≤ y then Real.arctan (y / x) + Real.pi else Real.arctan (y / x) - Real.pi)
  else if 0 < y then Real.pi / 2
  else if y < 0 then -(Real.pi / 2)
  else 0

/-- `THREE.Quaternion.slerp this qb t`, including the shortest-arc negation,
the aligned early-out, and the small-angle linear fallback
(`Number.EPSILON = 2⁻⁵²`). -/
def slerpQ (qa qb : Quat) (t : ℝ) : Quat :=
  if t = 0 then qa
  else if t = 1 then qb
  else
    let cosHalfTheta0 := qa.w * qb.w + qa.x * qb.x + qa.y * qb.y + qa.z * qb.z
    let qc : Quat := if cosHalfTheta0 < 0 then ⟨-qb.x, -qb.y, -qb.z, -qb.w⟩ else qb
    let cosHalfTheta := if cosHalfTheta0 < 0 then -cosHalfTheta0 else cosHalfTheta0
    if 1 ≤ cosHalfTheta then qa
    else
      let sqrSinHalfTheta := 1 - cosHalfTheta * cosHalfTheta
      if sqrSinHalfTheta ≤ (2 : ℝ) ^ (-52 : ℤ) then
        let s := 1 - t
        Quat.normalize ⟨s * qa.x + t * qc.x, s * qa.y + t * qc.y,
                        s * qa.z + t * qc.z, s * qa.w + t * qc.w⟩
      else
        let sinHalfTheta := Real.sqrt sqrSinHalfTheta
        let halfTheta := atan2 sinHalfTheta cosHalfTheta
        let rA := Real.sin ((1 - t) * halfTheta) / sinHalfTheta
        let rB := Real.sin (t * halfTheta) / sinHalfTheta
        ⟨qa.x * rA + qc.x * rB, qa.y * rA + qc.y * rB,
         qa.z * rA + qc.z * rB, qa.w * rA + qc.w * rB⟩

/-! ## Mode derivation (`Experience.tsx`) -/

/-- Modelled from the spec: the scene mode enum of `src/types.ts` (the file is
not part of the sources provided); the spec's data model gives
`baseMode : enum {FORMATION, CHAOS}`. -/
inductive TreeMode where
  | FORMATION : TreeMode
  | CHAOS : TreeMode
deriving DecidableEq

/-- `Experience.tsx` lines 39–42: `isDetailView = !!selectedPhoto`;
`effectiveMode = isDetailView ? TreeMode.CHAOS : mode`. -/
def effectiveMode (selectedPhoto : Option String) (mode : TreeMode) : TreeMode :=
  if selectedPhoto.isSome then TreeMode.CHAOS else mode

/-! ## Click guard (`PolaroidItem.handleClick`) -/

/-- `PolaroidItem` lines 254–259: `handleClick` calls `onPhotoClick(data.url)`
only when `!isDetailMode` (`isDetailMode = !!selectedPhoto`).  The returned
option is the invocation of the callback (`some` payload) or its absence. -/
def handleClick (selectedPhoto : Option String) (url : String) : Option String :=
  if selectedPhoto.isSome then none else some url

/-! ## Upload filter (`UIOverlay.handleFileChange`) -/

/-- A browser `File` as seen by `handleFileChange`: its MIME `type` plus an
opaque payload that `FileReader.readAsDataURL` resolves from. -/
structure UploadFile where
  type : String
  blob : String

/-- `UIOverlay.tsx` lines 31–58: loop over the selected files in order,
skip any file whose MIME type does not start with `"image/"`, read each
accepted file as a data URL; `Promise.all` preserves the push order, and the
resulting list is handed to `onPhotosUpload`.  `readAsDataURL` abstracts the
browser's reader. -/
def handleFileChange (readAsDataURL : UploadFile → String) :
    List UploadFile → List String
  | [] => []
  | f :: rest =>
    if f.type.startsWith "image/" then
      readAsDataURL f :: handleFileChange readAsDataURL rest
    else
      handleFileChange readAsDataURL rest

/-! ## Per-item data and the per-frame target resolver (`Polaroids`) -/

/-- The per-frame camera snapshot read by the resolver
(`state.camera` fields used by `PolaroidItem.useFrame`). -/
structure Camera where
  position : Vec3
  quaternion : Quat
  matrixWorld : Mat4
  fov : ℝ

/-- The `PhotoData` record built by `Polaroids` (the unused `scatterPos`
placeholder is omitted; `speed` is the constant 1 field). -/
structure PhotoData where
  id : ℕ
  url : String
  tapePos : Vec3
  screenPos : Vec3
  detailBackPos : Vec3
  speed : ℝ

/-- The resolved per-frame target pose (`targetPos`, `targetRot`,
`targetScale`). -/
structure Target where
  pos : Vec3
  rot : Quat
  scale : Vec3

/-- `PolaroidItem`: `photoWidth = 1.0`. -/
def photoWidth : ℝ := 1

/-- `PolaroidItem`: `photoHeight = photoWidth / aspectRatio`. -/
def photoHeight (aspect : ℝ) : ℝ := photoWidth / aspect

/-- `PolaroidItem`: `frameHeight = photoHeight + 0.4`. -/
def frameHeight (aspect : ℝ) : ℝ := photoHeight aspect + 0.4

/-- The keep-clear clamp inlined in `PolaroidItem`'s detail-background branch:
`if (Math.abs(x) < 4) x = x > 0 ? 4 : -4;`. -/
def clampKeepClear (x : ℝ) : ℝ :=
  if |x| < 4 then (if 0 < x then 4 else -4) else x

/-- The target-resolution body of `PolaroidItem.useFrame` (part_001 lines
76–233): branch priority is selected → detail-background → full-screen →
formation.  `parent` is the optional enclosing group, abstracted by its
`worldToLocal` conversion; `aspect` is the loaded texture's aspect ratio. -/
def resolveTarget (data : PhotoData) (aspect : ℝ) (isFullScreen : Bool)
    (selectedPhoto : Option String) (cam : Camera)
    (parent : Option (Vec3 → Vec3)) (time : ℝ) : Target :=
  if selectedPhoto = some data.url then
    -- Detail view: strictly relative to the camera.
    let cameraForward := Vec3.applyQuaternion cam.quaternion ⟨0, 0, -1⟩
    let distance : ℝ := 5
    let worldPos := cam.position.add (cameraForward.smul distance)
    let targetPos := match parent with
      | some worldToLocal => worldToLocal worldPos
      | none => worldPos
    let targetRot := lookAtQuat worldPos cam.position upY
    let visibleHeight := 2 * Real.tan (cam.fov * Real.pi / 360) * distance
    let scaleFactor := visibleHeight * 0.7 / frameHeight aspect
    ⟨targetPos, targetRot, ⟨scaleFactor, scaleFactor, scaleFactor⟩⟩
  else if selectedPhoto.isSome then
    -- Detail-background mode: push unrelated photos far back.
    let distance : ℝ := 25
    let cameraForward := Vec3.applyQuaternion cam.quaternion ⟨0, 0, -1⟩
    let worldCenter := cam.position.add (cameraForward.smul distance)
    let seed := (data.id : ℝ) * 13.0
    let rX := Real.sin seed * 20
    let rY := Real.cos (seed * 1.5) * 12
    let x := clampKeepClear rX
    let y := rY
    let cameraRight := Vec3.applyQuaternion cam.quaternion ⟨1, 0, 0⟩
    let cameraUp := Vec3.applyQuaternion cam.quaternion ⟨0, 1, 0⟩
    let pos := (worldCenter.add (cameraRight.smul x)).add (cameraUp.smul y)
    let targetPos := match parent with
      | some worldToLocal => worldToLocal pos
      | none => pos
    let targetRot := lookAtQuat pos cam.position upY
    ⟨targetPos, targetRot, ⟨0.5, 0.5, 0.5⟩⟩
  else if isFullScreen then
    -- Full screen: camera-relative scatter plus wobble.
    let worldPos := Vec3.applyMatrix4 cam.matrixWorld data.screenPos
    let targetPos0 := match parent with
      | some worldToLocal => worldToLocal worldPos
      | none => worldPos
    let targetRot := lookAtQuat worldPos cam.position upY
    let wobbleX := Real.sin (time * 1.5 + (data.id : ℝ)) * 0.1
    let wobbleY := Real.cos (time * 1.0 + (data.id : ℝ)) * 0.1
    ⟨⟨targetPos0.x + wobbleX, targetPos0.y + wobbleY, targetPos0.z⟩,
     targetRot, ⟨1, 1, 1⟩⟩
  else
    -- Main page: world-space spiral orbit.
    let cycleSpeed : ℝ := 0.2
    let angleOffset := time * cycleSpeed
    let x := data.tapePos.x * Real.cos angleOffset
               - data.tapePos.z * Real.sin angleOffset
    let z := data.tapePos.x * Real.sin angleOffset
               + data.tapePos.z * Real.cos angleOffset
    let targetPos : Vec3 := ⟨x, data.tapePos.y, z⟩
    let targetRot := rotateYQuat (lookAtQuat targetPos ⟨0, targetPos.y, 0⟩ upY) Real.pi
    ⟨targetPos, targetRot, ⟨1, 1, 1⟩⟩

/-! ## Interpolation step (`PolaroidItem.useFrame` tail) -/

/-- `const lerpSpeed = isDetailMode || isFullScreen ? 8 : 2;`. -/
def lerpSpeed (isDetailMode isFullScreen : Bool) : ℝ :=
  if isDetailMode || isFullScreen then 8 else 2

/-- An item's live transform. -/
structure Pose where
  pos : Vec3
  rot : Quat
  scale : Vec3

/-- One interpolation frame: `position.lerp(targetPos, delta * lerpSpeed)`,
`quaternion.slerp(targetRot, delta * lerpSpeed)`,
`scale.lerp(targetScale, delta * lerpSpeed)`. -/
def stepPose (pose : Pose) (tgt : Target) (isDetailMode isFullScreen : Bool)
    (delta : ℝ) : Pose :=
  let a := delta * lerpSpeed isDetailMode isFullScreen
  ⟨lerpV pose.pos tgt.pos a, slerpQ pose.rot tgt.rot a, lerpV pose.scale tgt.scale a⟩

/-! ## Spiral anchor generation (`Polaroids.photoData`) -/

/-- The spiral tape anchor for index `i` of `count` (part_001 lines 366–385):
`yNorm = i/count`, `y = 3 + yNorm*6`, cone radius `5*(1 - y/12)` plus the
`0.6` hover offset, `theta = i*2.5`. -/
def spiralTapePos (i count : ℕ) : Vec3 :=
  let yNorm : ℝ := (i : ℝ) / (count : ℝ)
  let y := 3 + yNorm * 6
  let treeHeight : ℝ := 12
  let treeMaxRadius : ℝ := 5
  let treeRadiusAtY := treeMaxRadius * (1 - y / treeHeight)
  let r := treeRadiusAtY + 0.6
  let theta := (i : ℝ) * 2.5
  ⟨r * Real.cos theta, y, r * Real.sin theta⟩

/-! ## Snow vertex shader (`Snow`, part_000) -/

/-- GLSL `mod(x, y) = x - y * floor(x/y)`. -/
def glslMod (x y : ℝ) : ℝ := x - y * (⌊x / y⌋ : ℤ)

/-- `fallOffset = uTime * uSpeed * (0.5 + aRandom * 0.5)`. -/
def snowFallOffset (t speed r : ℝ) : ℝ := t * speed * (0.5 + r * 0.5)

/-- The wrapped vertical position:
`pos.y = mod(newY - bottom, yRange) + bottom` with `newY = pos.y - fallOffset`,
`yRange = uHeight`, `bottom = -yRange/2`. -/
def snowNewY (y0 t speed r h : ℝ) : ℝ :=
  let bottom := -h / 2
  glslMod (y0 - snowFallOffset t speed r - bottom) h + bottom

/-- The wind-displaced horizontal x:
`pos.x += sin(uTime*0.5 + pos.y*0.5 + aRandom*10.0) * 0.5` — note it reads the
already-wrapped `pos.y`. -/
def snowX (x0 t r y : ℝ) : ℝ := x0 + Real.sin (t * 0.5 + y * 0.5 + r * 10) * 0.5

/-- The wind-displaced horizontal z:
`pos.z += cos(uTime*0.3 + pos.y*0.5 + aRandom*10.0) * 0.5`. -/
def snowZ (z0 t r y : ℝ) : ℝ := z0 + Real.cos (t * 0.3 + y * 0.5 + r * 10) * 0.5

/-! ## Claim theorems (C1, C9, C10) -/

/-- C1: for every base mode and selection state, the effective mode fed to the
resolvers is CHAOS whenever a selected photo is set and the base mode
otherwise; while a selection is set the derivation is independent of the base
mode. -/
theorem effective_mode_selection_overrides (mode mode2 : TreeMode) (url : String) :
    effectiveMode (some url) mode = TreeMode.CHAOS ∧
    effectiveMode none mode = mode ∧
    effectiveMode (some url) mode = effectiveMode (some url) mode2 :=
  ⟨rfl, rfl, rfl⟩

/-- C9: a click invokes `onPhotoClick` with the item's url exactly when no
photo is selected; while any selection is set (the selected item itself
included), the click handler invokes nothing. -/
theorem click_guard (url sel : String) :
    handleClick none url = some url ∧
    handleClick (some sel) url = none ∧
    handleClick (some url) url = none :=
  ⟨rfl, rfl, rfl⟩

/-- C10: the upload handler delivers exactly one data-URL entry per selected
file whose MIME type starts with `"image/"`, silently skipping every other
file, in the original selection order: the delivered list is the filtered
list mapped through the reader. -/
theorem upload_filters_images (readAsDataURL : UploadFile → String)
    (files : List UploadFile) :
    handleFileChange readAsDataURL files
      = (files.filter (fun f => f.type.startsWith "image/")).map readAsDataURL := by
  induction files with
  | nil => rfl
  | cons f rest ih =>
    by_cases h : f.type.startsWith "image/"
    · simp [handleFileChange, List.filter_cons, h, ih]
    · simp [handleFileChange, List.filter_cons, h, ih]

/-! ## Claim theorems (C2, C5) -/

/-- C2: when an item is the selected photo, the resolved target position is
the camera position plus camera-forward times the fixed focus distance 5
(passed through the parent's `worldToLocal` when a parent exists), the target
rotation is the look-at-camera orientation computed from that world position,
and the target scale is uniform with factor
`(2·tan(fov/2)·5·0.7) / frameHeight` (the code's `fov·π/360` is exactly half
the field of view in radians). -/
theorem selected_detail_pose (data : PhotoData) (aspect : ℝ) (fs : Bool)
    (cam : Camera) (wl : Vec3 → Vec3) (t : ℝ) :
    (resolveTarget data aspect fs (some data.url) cam (some wl) t).pos
        = wl (cam.position.add ((Vec3.applyQuaternion cam.quaternion ⟨0, 0, -1⟩).smul 5)) ∧
    (resolveTarget data aspect fs (some data.url) cam none t).pos
        = cam.position.add ((Vec3.applyQuaternion cam.quaternion ⟨0, 0, -1⟩).smul 5) ∧
    (resolveTarget data aspect fs (some data.url) cam (some wl) t).rot
        = lookAtQuat
            (cam.position.add ((Vec3.applyQuaternion cam.quaternion ⟨0, 0, -1⟩).smul 5))
            cam.position upY ∧
    (resolveTarget data aspect fs (some data.url) cam (some wl) t).scale
        = ⟨2 * Real.tan (cam.fov * Real.pi / 180 / 2) * 5 * 0.7 / frameHeight aspect,
           2 * Real.tan (cam.fov * Real.pi / 180 / 2) * 5 * 0.7 / frameHeight aspect,
           2 * Real.tan (cam.fov * Real.pi / 180 / 2) * 5 * 0.7 / frameHeight aspect⟩ := by
  have harg : cam.fov * Real.pi / 180 / 2 = cam.fov * Real.pi / 360 := by ring
  refine ⟨?_, ?_, ?_, ?_⟩
  · unfold resolveTarget
    rw [if_pos rfl]
  · unfold resolveTarget
    rw [if_pos rfl]
  · unfold resolveTarget
    rw [if_pos rfl]
  · unfold resolveTarget
    rw [if_pos rfl, harg]

/-- C5: the generated spiral anchor for index `i` of `count` has
`y = 3 + (i/count)·6`, lies at radius `5·(1 - y/12) + 0.6` (the cone radius at
height `y` plus the hover offset), and angular position `theta = i·2.5`. -/
theorem spiral_anchor_formula (i count : ℕ) (_h : i < count) :
    (spiralTapePos i count).y = 3 + ((i : ℝ) / (count : ℝ)) * 6 ∧
    (spiralTapePos i count).x
        = (5 * (1 - (spiralTapePos i count).y / 12) + 0.6) * Real.cos ((i : ℝ) * 2.5) ∧
    (spiralTapePos i count).z
        = (5 * (1 - (spiralTapePos i count).y / 12) + 0.6) * Real.sin ((i : ℝ) * 2.5) :=
  ⟨rfl, rfl, rfl⟩

/-- Witness for C5 at `i = 1`, `count = 3`. -/
theorem spiral_anchor_formula_witness :
    1 < 3 ∧
    ((spiralTapePos 1 3).y = 3 + (((1 : ℕ) : ℝ) / ((3 : ℕ) : ℝ)) * 6 ∧
     (spiralTapePos 1 3).x
        = (5 * (1 - (spiralTapePos 1 3).y / 12) + 0.6) * Real.cos (((1 : ℕ) : ℝ) * 2.5) ∧
     (spiralTapePos 1 3).z
        = (5 * (1 - (spiralTapePos 1 3).y / 12) + 0.6) * Real.sin (((1 : ℕ) : ℝ) * 2.5)) :=
  ⟨by norm_num, spiral_anchor_formula 1 3 (by norm_num)⟩

/-! ## Claim theorems (C6, C7) -/

/-- Rotation of a vector about the vertical (Y) axis by angle `a`, in the
orientation used by the formation branch (it advances the cylindrical angle
of `(x, z) = (r·cos θ, r·sin θ)` by `a`). -/
def rotAboutY (a : ℝ) (v : Vec3) : Vec3 :=
  ⟨v.x * Real.cos a - v.z * Real.sin a, v.y,
   v.x * Real.sin a + v.z * Real.cos a⟩

/-- C6: in formation mode (no selection, not full-screen) the resolved target
position is the spiral anchor rotated about the vertical axis by
`time · 0.2`; the item keeps its height and its distance to the axis, an
anchor at cylindrical angle `θ` moves to angle `θ + time·0.2`, and the target
rotation is the look-at of the vertical axis at the item's own height flipped
180° about vertical. -/
theorem formation_pose (data : PhotoData) (aspect : ℝ) (cam : Camera)
    (parent : Option (Vec3 → Vec3)) (t r θ h0 : ℝ) :
    (resolveTarget data aspect false none cam parent t).pos
        = rotAboutY (t * 0.2) data.tapePos ∧
    (resolveTarget data aspect false none cam parent t).pos.y = data.tapePos.y ∧
    (resolveTarget data aspect false none cam parent t).pos.x ^ 2
        + (resolveTarget data aspect false none cam parent t).pos.z ^ 2
        = data.tapePos.x ^ 2 + data.tapePos.z ^ 2 ∧
    (data.tapePos = ⟨r * Real.cos θ, h0, r * Real.sin θ⟩ →
      (resolveTarget data aspect false none cam parent t).pos
        = ⟨r * Real.cos (θ + t * 0.2), h0, r * Real.sin (θ + t * 0.2)⟩) ∧
    (resolveTarget data aspect false none cam parent t).rot
        = rotateYQuat
            (lookAtQuat (rotAboutY (t * 0.2) data.tapePos) ⟨0, data.tapePos.y, 0⟩ upY)
            Real.pi := by
  have hres : resolveTarget data aspect false none cam parent t
      = ⟨rotAboutY (t * 0.2) data.tapePos,
         rotateYQuat
           (lookAtQuat (rotAboutY (t * 0.2) data.tapePos) ⟨0, data.tapePos.y, 0⟩ upY)
           Real.pi,
         ⟨1, 1, 1⟩⟩ := by
    unfold resolveTarget
    rw [if_neg (by simp)]
    rfl
  refine ⟨?_, ?_, ?_, ?_, ?_⟩
  · rw [hres]
  · rw [hres]
    rfl
  · rw [hres]
    show (rotAboutY (t * 0.2) data.tapePos).x ^ 2
        + (rotAboutY (t * 0.2) data.tapePos).z ^ 2
        = data.tapePos.x ^ 2 + data.tapePos.z ^ 2
    unfold rotAboutY
    simp only
    linear_combination (data.tapePos.x ^ 2 + data.tapePos.z ^ 2)
      * Real.sin_sq_add_cos_sq (t * 0.2)
  · intro hanchor
    rw [hres]
    show rotAboutY (t * 0.2) data.tapePos = _
    rw [hanchor]
    unfold rotAboutY
    refine Vec3.ext ?_ ?_ ?_ <;> simp only
    · rw [Real.cos_add]
      ring
    · rw [Real.sin_add]
      ring
  · rw [hres]

/-- A concrete photo record used by witnesses: its anchor sits at cylindrical
radius 2, angle 0, height 3. -/
def photoSpiral : PhotoData :=
  ⟨0, "a", ⟨2 * Real.cos 0, 3, 2 * Real.sin 0⟩, ⟨0, 0, 0⟩, ⟨0, 0, 0⟩, 1⟩

/-- The identity matrix, standing in for a concrete `matrixWorld`. -/
def mat4Id : Mat4 := ⟨1, 0, 0, 0, 0, 1, 0, 0, 0, 0, 1, 0, 0, 0, 0, 1⟩

/-- A concrete camera snapshot used by witnesses. -/
def cam0 : Camera := ⟨⟨0, 0, 0⟩, ⟨0, 0, 0, 1⟩, mat4Id, 45⟩

/-- Witness for C6: the anchor at radius 2, angle 0, height 3 resolves, at
`t = 0`, to cylindrical angle `0 + 0·0.2`. -/
theorem formation_pose_witness :
    photoSpiral.tapePos = ⟨2 * Real.cos 0, 3, 2 * Real.sin 0⟩ ∧
    (resolveTarget photoSpiral 1 false none cam0 none 0).pos
      = ⟨2 * Real.cos (0 + 0 * 0.2), 3, 2 * Real.sin (0 + 0 * 0.2)⟩ :=
  ⟨rfl, (formation_pose photoSpiral 1 cam0 none 0 2 0 3).2.2.2.1 rfl⟩

/-- C7: the keep-clear rule of the detail-background branch: an id-derived
lateral offset `rX` with `|rX| < 4` is clamped outward to the boundary of the
keep-clear radius preserving sign (`0 < rX ↦ 4`, `rX < 0 ↦ -4`), offsets with
`|rX| ≥ 4` are used unchanged, and a non-selected item's recede position
during detail mode is `camera + 25·forward + clamp(rX)·right + rY·up`. -/
theorem recede_keep_clear (rX : ℝ) (data : PhotoData) (aspect : ℝ) (fs : Bool)
    (cam : Camera) (t : ℝ) (u : String) :
    (0 < rX → |rX| < 4 → clampKeepClear rX = 4) ∧
    (rX < 0 → |rX| < 4 → clampKeepClear rX = -4) ∧
    (4 ≤ |rX| → clampKeepClear rX = rX) ∧
    (u ≠ data.url →
      (resolveTarget data aspect fs (some u) cam none t).pos
        = ((cam.position.add ((Vec3.applyQuaternion cam.quaternion ⟨0, 0, -1⟩).smul 25)).add
            ((Vec3.applyQuaternion cam.quaternion ⟨1, 0, 0⟩).smul
              (clampKeepClear (Real.sin ((data.id : ℝ) * 13.0) * 20)))).add
          ((Vec3.applyQuaternion cam.quaternion ⟨0, 1, 0⟩).smul
            (Real.cos ((data.id : ℝ) * 13.0 * 1.5) * 12))) := by
  refine ⟨?_, ?_, ?_, ?_⟩
  · intro hpos habs
    unfold clampKeepClear
    rw [if_pos habs, if_pos hpos]
  · intro hneg habs
    unfold clampKeepClear
    rw [if_pos habs, if_neg (by linarith)]
  · intro habs
    unfold clampKeepClear
    rw [if_neg (not_lt.mpr habs)]
  · intro hu
    unfold resolveTarget
    rw [if_neg (by simp [hu])]
    rfl

/-- A second concrete photo record (url "a", id 0) for the C7 witness. -/
def photo0 : PhotoData := ⟨0, "a", ⟨0, 0, 0⟩, ⟨0, 0, 0⟩, ⟨0, 0, 0⟩, 1⟩

/-- Witness for C7: concrete clamps at 2, −2 and 5, and the recede position of
a non-selected item (`"b"` selected, item url `"a"`). -/
theorem recede_keep_clear_witness :
    clampKeepClear 2 = 4 ∧ clampKeepClear (-2) = -4 ∧ clampKeepClear 5 = 5 ∧
    (resolveTarget photo0 1 false (some "b") cam0 none 0).pos
      = ((cam0.position.add
            ((Vec3.applyQuaternion cam0.quaternion ⟨0, 0, -1⟩).smul 25)).add
          ((Vec3.applyQuaternion cam0.quaternion ⟨1, 0, 0⟩).smul
            (clampKeepClear (Real.sin ((photo0.id : ℝ) * 13.0) * 20)))).add
        ((Vec3.applyQuaternion cam0.quaternion ⟨0, 1, 0⟩).smul
          (Real.cos ((photo0.id : ℝ) * 13.0 * 1.5) * 12)) :=
  ⟨(recede_keep_clear 2 photo0 1 false cam0 0 "b").1 (by norm_num) (by norm_num),
   (recede_keep_clear (-2) photo0 1 false cam0 0 "b").2.1 (by norm_num) (by norm_num),
   (recede_keep_clear 5 photo0 1 false cam0 0 "b").2.2.1 (by norm_num),
   (recede_keep_clear 0 photo0 1 false cam0 0 "b").2.2.2 (by decide)⟩

/-! ## Claim theorems (C3, C8): the interpolation step -/

/-- The spec's claimed position advance, following its words:
`position += (target - position) * min(1, rate * delta)`. -/
def lerpClampedSpec (p target : Vec3) (rate delta : ℝ) : Vec3 :=
  lerpV p target (min 1 (rate * delta))

/-- C3 counterexample: in formation mode (rate 2) a frame with `delta = 1`
advances the position by `(target - position)·2`, overshooting through the
target, not by the claimed clamped factor `min(1, 2·1) = 1`: from `x = 1`
toward `x = 0` the code lands at `-1` while the claimed formula lands at `0`. -/
theorem interpolation_clamped_cex :
    (stepPose ⟨⟨1, 0, 0⟩, ⟨0, 0, 0, 1⟩, ⟨1, 1, 1⟩⟩ ⟨⟨0, 0, 0⟩, ⟨0, 0, 0, 1⟩, ⟨1, 1, 1⟩⟩
        false false 1).pos
      ≠ lerpClampedSpec ⟨1, 0, 0⟩ ⟨0, 0, 0⟩ (lerpSpeed false false) 1 := by
  intro hcontra
  have hx := congrArg Vec3.x hcontra
  simp only [stepPose, lerpClampedSpec, lerpV, lerpSpeed, Bool.or_self, if_false] at hx
  norm_num at hx

/-- C3 amended: the interpolator advances position (and scale) by
`(target - current) * (rate * delta)` with no clamping — it can overshoot when
`rate·delta > 1` — advances rotation by the shortest-arc slerp at the same
effective factor `delta · rate`, and the rate is 8 when detail mode or
full-screen is active and 2 otherwise. -/
theorem interpolation_step_amended (pose : Pose) (tgt : Target) (d : ℝ) (b c : Bool) :
    stepPose pose tgt b c d
        = ⟨lerpV pose.pos tgt.pos (d * lerpSpeed b c),
           slerpQ pose.rot tgt.rot (d * lerpSpeed b c),
           lerpV pose.scale tgt.scale (d * lerpSpeed b c)⟩ ∧
    (∀ v w : Vec3, ∀ a : ℝ,
      lerpV v w a = ⟨v.x + (w.x - v.x) * a, v.y + (w.y - v.y) * a, v.z + (w.z - v.z) * a⟩) ∧
    lerpSpeed true c = 8 ∧ lerpSpeed c true = 8 ∧ lerpSpeed false false = 2 := by
  refine ⟨rfl, fun v w a => rfl, rfl, ?_, rfl⟩
  cases c <;> rfl

/-- The ℓ¹ distance between two vectors; the per-frame lerp scales any
coordinatewise norm by `|1 - alpha|`, so this one measures convergence. -/
def dist1 (a b : Vec3) : ℝ := |a.x - b.x| + |a.y - b.y| + |a.z - b.z|

/-- Folding one `lerpV` frame per entry of a list of interpolation factors. -/
def iterLerp (target : Vec3) : List ℝ → Vec3 → Vec3
  | [], p => p
  | a :: rest, p => iterLerp target rest (lerpV p target a)

theorem dist1_nonneg (a b : Vec3) : 0 ≤ dist1 a b := by
  unfold dist1
  positivity

theorem dist1_lerpV (p target : Vec3) (a : ℝ) :
    dist1 (lerpV p target a) target = |1 - a| * dist1 p target := by
  unfold dist1 lerpV
  simp only
  have hx : p.x + (target.x - p.x) * a - target.x = (1 - a) * (p.x - target.x) := by ring
  have hy : p.y + (target.y - p.y) * a - target.y = (1 - a) * (p.y - target.y) := by ring
  have hz : p.z + (target.z - p.z) * a - target.z = (1 - a) * (p.z - target.z) := by ring
  rw [hx, hy, hz, abs_mul, abs_mul, abs_mul]
  ring

theorem iterLerp_geom_bound (target p : Vec3) (lo : ℝ) (hlo : lo ≤ 1)
    (ds : List ℝ) (hds : ∀ a ∈ ds, lo ≤ a ∧ a ≤ 1) :
    dist1 (iterLerp target ds p) target ≤ (1 - lo) ^ ds.length * dist1 p target := by
  induction ds generalizing p with
  | nil => simp [iterLerp]
  | cons a rest ih =>
    have ha := hds a (List.mem_cons_self a rest)
    have hstep : dist1 (lerpV p target a) target ≤ (1 - lo) * dist1 p target := by
      rw [dist1_lerpV]
      have h1 : |1 - a| = 1 - a := abs_of_nonneg (by linarith [ha.2])
      rw [h1]
      exact mul_le_mul_of_nonneg_right (by linarith [ha.1]) (dist1_nonneg p target)
    calc dist1 (iterLerp target (a :: rest) p) target
        = dist1 (iterLerp target rest (lerpV p target a)) target := rfl
      _ ≤ (1 - lo) ^ rest.length * dist1 (lerpV p target a) target :=
          ih (lerpV p target a) (fun x hx => hds x (List.mem_cons_of_mem a hx))
      _ ≤ (1 - lo) ^ rest.length * ((1 - lo) * dist1 p target) :=
          mul_le_mul_of_nonneg_left hstep (pow_nonneg (by linarith) _)
      _ = (1 - lo) ^ (a :: rest).length * dist1 p target := by
          rw [List.length_cons, pow_succ]
          ring

/-! ## Angular distance for the slerp step (rotation component) -/

/-- The THREE quaternion dot product. -/
def qdot (a b : Quat) : ℝ := a.x * b.x + a.y * b.y + a.z * b.z + a.w * b.w

/-- Angular misalignment between two orientations. -/
def distQ (a b : Quat) : ℝ := 1 - |qdot a b|

theorem qdot_lagrange (a b : Quat) :
    qdot a b ^ 2
      = qdot a a * qdot b b
        - ((a.x * b.y - a.y * b.x) ^ 2 + (a.x * b.z - a.z * b.x) ^ 2
           + (a.x * b.w - a.w * b.x) ^ 2 + (a.y * b.z - a.z * b.y) ^ 2
           + (a.y * b.w - a.w * b.y) ^ 2 + (a.z * b.w - a.w * b.z) ^ 2) := by
  unfold qdot
  ring

theorem abs_qdot_le_one (a b : Quat) (ha : qdot a a = 1) (hb : qdot b b = 1) :
    |qdot a b| ≤ 1 := by
  have key := qdot_lagrange a b
  rw [ha, hb] at key
  rw [abs_le]
  constructor <;>
    nlinarith [sq_nonneg (a.x * b.y - a.y * b.x), sq_nonneg (a.x * b.z - a.z * b.x),
      sq_nonneg (a.x * b.w - a.w * b.x), sq_nonneg (a.y * b.z - a.z * b.y),
      sq_nonneg (a.y * b.w - a.w * b.y), sq_nonneg (a.z * b.w - a.w * b.z)]

theorem distQ_nonneg (a b : Quat) (ha : qdot a a = 1) (hb : qdot b b = 1) :
    0 ≤ distQ a b := by
  unfold distQ
  linarith [abs_qdot_le_one a b ha hb]

theorem normalize_props (q : Quat) (hq : 0 < qdot q q) :
    qdot (Quat.normalize q) (Quat.normalize q) = 1 ∧
    ∀ b : Quat, qdot (Quat.normalize q) b = qdot q b / Real.sqrt (qdot q q) := by
  have hl : 0 < Real.sqrt (q.x * q.x + q.y * q.y + q.z * q.z + q.w * q.w) :=
    Real.sqrt_pos.mpr hq
  have hl2 : Real.sqrt (q.x * q.x + q.y * q.y + q.z * q.z + q.w * q.w) ^ 2
      = q.x * q.x + q.y * q.y + q.z * q.z + q.w * q.w := Real.sq_sqrt hq.le
  unfold Quat.normalize
  rw [if_neg hl.ne']
  constructor
  · unfold qdot at hq ⊢
    field_simp
  · intro b
    unfold qdot
    field_simp

/-- The main-branch slerp combination coefficient for the start quaternion. -/
def slerpRa (c t : ℝ) : ℝ :=
  Real.sin ((1 - t) * atan2 (Real.sqrt (1 - c * c)) c) / Real.sqrt (1 - c * c)

/-- The main-branch slerp combination coefficient for the (sign-fixed) end
quaternion. -/
def slerpRb (c t : ℝ) : ℝ :=
  Real.sin (t * atan2 (Real.sqrt (1 - c * c)) c) / Real.sqrt (1 - c * c)

/-- The resolved main branch of `slerpQ`: the sine-ratio combination toward
the sign-fixed target `qc`, whose dot with the start is `c`. -/
def mainForm (qa qc : Quat) (c t : ℝ) : Quat :=
  ⟨qa.x * slerpRa c t + qc.x * slerpRb c t,
   qa.y * slerpRa c t + qc.y * slerpRb c t,
   qa.z * slerpRa c t + qc.z * slerpRb c t,
   qa.w * slerpRa c t + qc.w * slerpRb c t⟩

/-- The resolved small-angle fallback of `slerpQ`: normalized linear blend. -/
def nlerpForm (qa qc : Quat) (t : ℝ) : Quat :=
  Quat.normalize ⟨(1 - t) * qa.x + t * qc.x, (1 - t) * qa.y + t * qc.y,
                  (1 - t) * qa.z + t * qc.z, (1 - t) * qa.w + t * qc.w⟩

theorem slerpQ_zero (qa qb : Quat) : slerpQ qa qb 0 = qa := by
  unfold slerpQ
  rw [if_pos rfl]

theorem slerpQ_one (qa qb : Quat) : slerpQ qa qb 1 = qb := by
  unfold slerpQ
  rw [if_neg (one_ne_zero), if_pos rfl]

theorem slerpQ_eq_aligned (qa qb : Quat) (t : ℝ) (ht0 : ¬ t = 0) (ht1 : ¬ t = 1)
    (h1le : 1 ≤ (if qa.w * qb.w + qa.x * qb.x + qa.y * qb.y + qa.z * qb.z < 0
        then -(qa.w * qb.w + qa.x * qb.x + qa.y * qb.y + qa.z * qb.z)
        else qa.w * qb.w + qa.x * qb.x + qa.y * qb.y + qa.z * qb.z)) :
    slerpQ qa qb t = qa := by
  simp only [slerpQ, if_neg ht0, if_neg ht1, if_pos h1le]

theorem slerpQ_eq_nlerp_pos (qa qb : Quat) (t : ℝ) (ht0 : ¬ t = 0) (ht1 : ¬ t = 1)
    (hsgn : ¬ (qa.w * qb.w + qa.x * qb.x + qa.y * qb.y + qa.z * qb.z < 0))
    (h1le : ¬ 1 ≤ qa.w * qb.w + qa.x * qb.x + qa.y * qb.y + qa.z * qb.z)
    (heps : 1 - (qa.w * qb.w + qa.x * qb.x + qa.y * qb.y + qa.z * qb.z)
        * (qa.w * qb.w + qa.x * qb.x + qa.y * qb.y + qa.z * qb.z) ≤ (2 : ℝ) ^ (-52 : ℤ)) :
    slerpQ qa qb t = nlerpForm qa qb t := by
  simp only [slerpQ, nlerpForm, if_neg ht0, if_neg ht1, if_neg hsgn, if_neg h1le,
    if_pos heps]

theorem slerpQ_eq_nlerp_neg (qa qb : Quat) (t : ℝ) (ht0 : ¬ t = 0) (ht1 : ¬ t = 1)
    (hsgn : qa.w * qb.w + qa.x * qb.x + qa.y * qb.y + qa.z * qb.z < 0)
    (h1le : ¬ 1 ≤ -(qa.w * qb.w + qa.x * qb.x + qa.y * qb.y + qa.z * qb.z))
    (heps : 1 - -(qa.w * qb.w + qa.x * qb.x + qa.y * qb.y + qa.z * qb.z)
        * -(qa.w * qb.w + qa.x * qb.x + qa.y * qb.y + qa.z * qb.z) ≤ (2 : ℝ) ^ (-52 : ℤ)) :
    slerpQ qa qb t = nlerpForm qa ⟨-qb.x, -qb.y, -qb.z, -qb.w⟩ t := by
  simp only [slerpQ, nlerpForm, if_neg ht0, if_neg ht1, if_pos hsgn, if_neg h1le,
    if_pos heps]

theorem slerpQ_eq_main_pos (qa qb : Quat) (t : ℝ) (ht0 : ¬ t = 0) (ht1 : ¬ t = 1)
    (hsgn : ¬ (qa.w * qb.w + qa.x * qb.x + qa.y * qb.y + qa.z * qb.z < 0))
    (h1le : ¬ 1 ≤ qa.w * qb.w + qa.x * qb.x + qa.y * qb.y + qa.z * qb.z)
    (heps : ¬ (1 - (qa.w * qb.w + qa.x * qb.x + qa.y * qb.y + qa.z * qb.z)
        * (qa.w * qb.w + qa.x * qb.x + qa.y * qb.y + qa.z * qb.z) ≤ (2 : ℝ) ^ (-52 : ℤ))) :
    slerpQ qa qb t
      = mainForm qa qb (qa.w * qb.w + qa.x * qb.x + qa.y * qb.y + qa.z * qb.z) t := by
  simp only [slerpQ, mainForm, slerpRa, slerpRb, if_neg ht0, if_neg ht1, if_neg hsgn,
    if_neg h1le, if_neg heps]

theorem slerpQ_eq_main_neg (qa qb : Quat) (t : ℝ) (ht0 : ¬ t = 0) (ht1 : ¬ t = 1)
    (hsgn : qa.w * qb.w + qa.x * qb.x + qa.y * qb.y + qa.z * qb.z < 0)
    (h1le : ¬ 1 ≤ -(qa.w * qb.w + qa.x * qb.x + qa.y * qb.y + qa.z * qb.z))
    (heps : ¬ (1 - -(qa.w * qb.w + qa.x * qb.x + qa.y * qb.y + qa.z * qb.z)
        * -(qa.w * qb.w + qa.x * qb.x + qa.y * qb.y + qa.z * qb.z) ≤ (2 : ℝ) ^ (-52 : ℤ))) :
    slerpQ qa qb t
      = mainForm qa ⟨-qb.x, -qb.y, -qb.z, -qb.w⟩
          (-(qa.w * qb.w + qa.x * qb.x + qa.y * qb.y + qa.z * qb.z)) t := by
  simp only [slerpQ, mainForm, slerpRa, slerpRb, if_neg ht0, if_neg ht1, if_pos hsgn,
    if_neg h1le, if_neg heps]

theorem atan2_sqrt_props (c : ℝ) (hc0 : 0 ≤ c) (hc1 : c < 1) :
    Real.cos (atan2 (Real.sqrt (1 - c * c)) c) = c ∧
    Real.sin (atan2 (Real.sqrt (1 - c * c)) c) = Real.sqrt (1 - c * c) ∧
    0 ≤ atan2 (Real.sqrt (1 - c * c)) c ∧
    atan2 (Real.sqrt (1 - c * c)) c ≤ Real.pi / 2 := by
  have hs0 : 0 < 1 - c * c := by nlinarith
  have hsq : Real.sqrt (1 - c * c) ^ 2 = 1 - c * c := Real.sq_sqrt hs0.le
  have hspos : 0 < Real.sqrt (1 - c * c) := Real.sqrt_pos.mpr hs0
  rcases eq_or_lt_of_le hc0 with h0 | hpos
  · have hc : c = 0 := h0.symm
    subst hc
    unfold atan2
    rw [if_neg (lt_irrefl 0), if_neg (lt_irrefl 0), if_pos hspos]
    refine ⟨Real.cos_pi_div_two, ?_, by positivity, le_refl _⟩
    rw [Real.sin_pi_div_two]
    rw [show (1 : ℝ) - 0 * 0 = 1 by norm_num, Real.sqrt_one]
  · unfold atan2
    rw [if_pos hpos]
    have harg : 1 + (Real.sqrt (1 - c * c) / c) ^ 2 = 1 / c ^ 2 := by
      field_simp
      nlinarith [hsq]
    have hinv : Real.sqrt (1 / c ^ 2) = 1 / c := by
      rw [one_div, Real.sqrt_inv, Real.sqrt_sq hpos.le, one_div]
    refine ⟨?_, ?_, ?_, (Real.arctan_lt_pi_div_two _).le⟩
    · rw [Real.cos_arctan, harg, hinv]
      field_simp
    · rw [Real.sin_arctan, harg, hinv]
      field_simp
    · have h := Real.arctan_strictMono.monotone
        (show (0 : ℝ) ≤ Real.sqrt (1 - c * c) / c by positivity)
      simpa [Real.arctan_zero] using h

theorem qdot_linear (qa qc : Quat) (rA rB : ℝ) :
    qdot ⟨qa.x * rA + qc.x * rB, qa.y * rA + qc.y * rB,
          qa.z * rA + qc.z * rB, qa.w * rA + qc.w * rB⟩ qc
      = rA * qdot qa qc + rB * qdot qc qc := by
  unfold qdot
  ring

theorem qdot_linear_self (qa qc : Quat) (rA rB : ℝ) :
    qdot ⟨qa.x * rA + qc.x * rB, qa.y * rA + qc.y * rB,
          qa.z * rA + qc.z * rB, qa.w * rA + qc.w * rB⟩
         ⟨qa.x * rA + qc.x * rB, qa.y * rA + qc.y * rB,
          qa.z * rA + qc.z * rB, qa.w * rA + qc.w * rB⟩
      = rA ^ 2 * qdot qa qa + 2 * rA * rB * qdot qa qc + rB ^ 2 * qdot qc qc := by
  unfold qdot
  ring

theorem mainForm_bound (qa qc : Quat) (c t : ℝ)
    (ha : qdot qa qa = 1) (hqc : qdot qc qc = 1) (hdot : qdot qa qc = c)
    (hc0 : 0 ≤ c) (hc1 : c < 1) (ht0 : 0 ≤ t) (ht1 : t ≤ 1) :
    1 - qdot (mainForm qa qc c t) qc ≤ (1 - t) * (1 - c) ∧
    qdot (mainForm qa qc c t) (mainForm qa qc c t) = 1 := by
  obtain ⟨hcos, hsin, hth0, hthp⟩ := atan2_sqrt_props c hc0 hc1
  have hs0 : 0 < 1 - c * c := by nlinarith
  have hsq : Real.sqrt (1 - c * c) ^ 2 = 1 - c * c := Real.sq_sqrt hs0.le
  have hspos : 0 < Real.sqrt (1 - c * c) := Real.sqrt_pos.mpr hs0
  have hform : mainForm qa qc c t
      = ⟨qa.x * slerpRa c t + qc.x * slerpRb c t,
         qa.y * slerpRa c t + qc.y * slerpRb c t,
         qa.z * slerpRa c t + qc.z * slerpRb c t,
         qa.w * slerpRa c t + qc.w * slerpRb c t⟩ := rfl
  have hsplit : t * atan2 (Real.sqrt (1 - c * c)) c
      = atan2 (Real.sqrt (1 - c * c)) c
        - (1 - t) * atan2 (Real.sqrt (1 - c * c)) c := by
    ring
  have hRb : slerpRb c t
      = Real.cos ((1 - t) * atan2 (Real.sqrt (1 - c * c)) c)
        - c * Real.sin ((1 - t) * atan2 (Real.sqrt (1 - c * c)) c)
            / Real.sqrt (1 - c * c) := by
    unfold slerpRb
    rw [hsplit, Real.sin_sub, hsin, hcos]
    field_simp
    ring
  have hdots : qdot (mainForm qa qc c t) qc
      = Real.cos ((1 - t) * atan2 (Real.sqrt (1 - c * c)) c) := by
    rw [hform, qdot_linear, hdot, hqc, mul_one, hRb]
    unfold slerpRa
    field_simp
    ring
  constructor
  · rw [hdots]
    -- concavity of cos on [-pi/2, pi/2] through the points theta and 0
    have hmem1 : atan2 (Real.sqrt (1 - c * c)) c
        ∈ Set.Icc (-(Real.pi / 2)) (Real.pi / 2) := by
      constructor
      · linarith [Real.pi_pos]
      · exact hthp
    have hmem0 : (0 : ℝ) ∈ Set.Icc (-(Real.pi / 2)) (Real.pi / 2) := by
      constructor
      · linarith [Real.pi_pos]
      · linarith [Real.pi_pos]
    have hcc := (strictConcaveOn_cos_Icc.concaveOn).2 hmem1 hmem0
      (show (0 : ℝ) ≤ 1 - t by linarith) ht0 (by ring)
    simp only [smul_eq_mul, mul_zero, add_zero, Real.cos_zero, mul_one] at hcc
    rw [hcos] at hcc
    nlinarith [hcc]
  · rw [hform, qdot_linear_self, ha, hqc, hdot, mul_one, mul_one, hRb]
    unfold slerpRa
    have hpyth := Real.sin_sq_add_cos_sq
      ((1 - t) * atan2 (Real.sqrt (1 - c * c)) c)
    field_simp
    nlinarith [hpyth, hsq]

theorem qdot_blend (qa qc : Quat) (t : ℝ) :
    qdot ⟨(1 - t) * qa.x + t * qc.x, (1 - t) * qa.y + t * qc.y,
          (1 - t) * qa.z + t * qc.z, (1 - t) * qa.w + t * qc.w⟩ qc
      = (1 - t) * qdot qa qc + t * qdot qc qc := by
  unfold qdot
  ring

theorem qdot_blend_self (qa qc : Quat) (t : ℝ) :
    qdot ⟨(1 - t) * qa.x + t * qc.x, (1 - t) * qa.y + t * qc.y,
          (1 - t) * qa.z + t * qc.z, (1 - t) * qa.w + t * qc.w⟩
         ⟨(1 - t) * qa.x + t * qc.x, (1 - t) * qa.y + t * qc.y,
          (1 - t) * qa.z + t * qc.z, (1 - t) * qa.w + t * qc.w⟩
      = (1 - t) ^ 2 * qdot qa qa + 2 * t * (1 - t) * qdot qa qc
        + t ^ 2 * qdot qc qc := by
  unfold qdot
  ring

theorem nlerpForm_bound (qa qc : Quat) (c t : ℝ)
    (ha : qdot qa qa = 1) (hqc : qdot qc qc = 1) (hdot : qdot qa qc = c)
    (hc0 : 0 ≤ c) (hc1 : c ≤ 1) (ht0 : 0 ≤ t) (ht1 : t ≤ 1) :
    1 - qdot (nlerpForm qa qc t) qc ≤ (1 - t) * (1 - c) ∧
    qdot (nlerpForm qa qc t) (nlerpForm qa qc t) = 1 := by
  have hbb : qdot ⟨(1 - t) * qa.x + t * qc.x, (1 - t) * qa.y + t * qc.y,
        (1 - t) * qa.z + t * qc.z, (1 - t) * qa.w + t * qc.w⟩
      ⟨(1 - t) * qa.x + t * qc.x, (1 - t) * qa.y + t * qc.y,
        (1 - t) * qa.z + t * qc.z, (1 - t) * qa.w + t * qc.w⟩
      = (1 - t) ^ 2 + 2 * t * (1 - t) * c + t ^ 2 := by
    rw [qdot_blend_self, ha, hqc, hdot]
    ring
  have hbc : qdot ⟨(1 - t) * qa.x + t * qc.x, (1 - t) * qa.y + t * qc.y,
        (1 - t) * qa.z + t * qc.z, (1 - t) * qa.w + t * qc.w⟩ qc
      = (1 - t) * c + t := by
    rw [qdot_blend, hdot, hqc]
    ring
  have hpos : 0 < (1 - t) ^ 2 + 2 * t * (1 - t) * c + t ^ 2 := by
    nlinarith [sq_nonneg (1 - 2 * t), mul_nonneg (mul_nonneg ht0 (by linarith : (0:ℝ) ≤ 1 - t)) hc0]
  obtain ⟨hn1, hn2⟩ := normalize_props
    ⟨(1 - t) * qa.x + t * qc.x, (1 - t) * qa.y + t * qc.y,
     (1 - t) * qa.z + t * qc.z, (1 - t) * qa.w + t * qc.w⟩ (by rw [hbb]; exact hpos)
  refine ⟨?_, hn1⟩
  have hform : nlerpForm qa qc t
      = Quat.normalize ⟨(1 - t) * qa.x + t * qc.x, (1 - t) * qa.y + t * qc.y,
          (1 - t) * qa.z + t * qc.z, (1 - t) * qa.w + t * qc.w⟩ := rfl
  rw [hform, hn2 qc, hbc, hbb]
  have hle1 : (1 - t) ^ 2 + 2 * t * (1 - t) * c + t ^ 2 ≤ 1 := by
    nlinarith [mul_nonneg (mul_nonneg ht0 (by linarith : (0:ℝ) ≤ 1 - t)) (by linarith : (0:ℝ) ≤ 1 - c)]
  have hsle : Real.sqrt ((1 - t) ^ 2 + 2 * t * (1 - t) * c + t ^ 2) ≤ 1 := by
    calc Real.sqrt ((1 - t) ^ 2 + 2 * t * (1 - t) * c + t ^ 2)
        ≤ Real.sqrt 1 := Real.sqrt_le_sqrt hle1
      _ = 1 := Real.sqrt_one
  have hspos : 0 < Real.sqrt ((1 - t) ^ 2 + 2 * t * (1 - t) * c + t ^ 2) :=
    Real.sqrt_pos.mpr hpos
  have hnum : 0 ≤ (1 - t) * c + t := by
    nlinarith [mul_nonneg (by linarith : (0:ℝ) ≤ 1 - t) hc0]
  have hdiv : (1 - t) * c + t
      ≤ ((1 - t) * c + t) / Real.sqrt ((1 - t) ^ 2 + 2 * t * (1 - t) * c + t ^ 2) := by
    rw [le_div_iff₀ hspos]
    exact mul_le_of_le_one_right hnum hsle
  nlinarith [hdiv]

theorem qdot_neg_right (a b : Quat) :
    qdot a ⟨-b.x, -b.y, -b.z, -b.w⟩ = -qdot a b := by
  unfold qdot
  ring

theorem qdot_neg_self (b : Quat) :
    qdot ⟨-b.x, -b.y, -b.z, -b.w⟩ ⟨-b.x, -b.y, -b.z, -b.w⟩ = qdot b b := by
  unfold qdot
  ring

/-- One THREE slerp frame with factor `t ∈ [0, 1]` between unit quaternions:
in every branch of the code it contracts the angular misalignment to the
target by at least the factor `1 - t`, and returns a unit quaternion. -/
theorem slerp_step (qa qb : Quat) (t : ℝ)
    (ha : qdot qa qa = 1) (hb : qdot qb qb = 1) (ht0 : 0 ≤ t) (ht1 : t ≤ 1) :
    distQ (slerpQ qa qb t) qb ≤ (1 - t) * distQ qa qb ∧
    qdot (slerpQ qa qb t) (slerpQ qa qb t) = 1 := by
  have hE : qa.w * qb.w + qa.x * qb.x + qa.y * qb.y + qa.z * qb.z = qdot qa qb := by
    unfold qdot
    ring
  by_cases h0 : t = 0
  · subst h0
    rw [slerpQ_zero]
    exact ⟨by nlinarith [distQ_nonneg qa qb ha hb], ha⟩
  by_cases h1 : t = 1
  · subst h1
    rw [slerpQ_one]
    have hz : distQ qb qb = 0 := by
      unfold distQ
      rw [hb, abs_one]
      ring
    exact ⟨by nlinarith [distQ_nonneg qa qb ha hb, hz.le, hz.ge], hb⟩
  by_cases h1le : 1 ≤ (if qa.w * qb.w + qa.x * qb.x + qa.y * qb.y + qa.z * qb.z < 0
      then -(qa.w * qb.w + qa.x * qb.x + qa.y * qb.y + qa.z * qb.z)
      else qa.w * qb.w + qa.x * qb.x + qa.y * qb.y + qa.z * qb.z)
  · rw [slerpQ_eq_aligned qa qb t h0 h1 h1le]
    have habs : |qdot qa qb| = 1 := by
      have hle := abs_qdot_le_one qa qb ha hb
      have hge : 1 ≤ |qdot qa qb| := by
        rcases lt_or_le (qa.w * qb.w + qa.x * qb.x + qa.y * qb.y + qa.z * qb.z) 0
          with hn | hp
        · rw [if_pos hn] at h1le
          rw [← hE, abs_of_neg hn]
          exact h1le
        · rw [if_neg (not_lt.mpr hp)] at h1le
          rw [← hE, abs_of_nonneg hp]
          exact h1le
      linarith
    have hz : distQ qa qb = 0 := by
      unfold distQ
      rw [habs]
      ring
    refine ⟨?_, ha⟩
    rw [hz]
    nlinarith [distQ_nonneg qa qb ha hb, hz.le, hz.ge]
  -- genuinely interpolating branches
  by_cases hsgn : qa.w * qb.w + qa.x * qb.x + qa.y * qb.y + qa.z * qb.z < 0
  · -- shortest-arc negation: qc = -qb
    rw [if_pos hsgn] at h1le
    have hqcqc : qdot ⟨-qb.x, -qb.y, -qb.z, -qb.w⟩ ⟨-qb.x, -qb.y, -qb.z, -qb.w⟩ = 1 := by
      rw [qdot_neg_self]
      exact hb
    have hqaqc : qdot qa ⟨-qb.x, -qb.y, -qb.z, -qb.w⟩
        = -(qa.w * qb.w + qa.x * qb.x + qa.y * qb.y + qa.z * qb.z) := by
      rw [qdot_neg_right, ← hE]
    have hc0' : (0:ℝ) ≤ -(qa.w * qb.w + qa.x * qb.x + qa.y * qb.y + qa.z * qb.z) := by
      linarith
    have hc1' : -(qa.w * qb.w + qa.x * qb.x + qa.y * qb.y + qa.z * qb.z) < 1 :=
      not_le.mp h1le
    have habsE : |qdot qa qb|
        = -(qa.w * qb.w + qa.x * qb.x + qa.y * qb.y + qa.z * qb.z) := by
      rw [← hE, abs_of_neg hsgn]
    by_cases heps : 1 - -(qa.w * qb.w + qa.x * qb.x + qa.y * qb.y + qa.z * qb.z)
        * -(qa.w * qb.w + qa.x * qb.x + qa.y * qb.y + qa.z * qb.z) ≤ (2 : ℝ) ^ (-52 : ℤ)
    · rw [slerpQ_eq_nlerp_neg qa qb t h0 h1 hsgn h1le heps]
      obtain ⟨hbd, hu⟩ := nlerpForm_bound qa ⟨-qb.x, -qb.y, -qb.z, -qb.w⟩
        (-(qa.w * qb.w + qa.x * qb.x + qa.y * qb.y + qa.z * qb.z)) t
        ha hqcqc hqaqc hc0' hc1'.le ht0 ht1
      refine ⟨?_, hu⟩
      unfold distQ
      rw [show qdot (nlerpForm qa ⟨-qb.x, -qb.y, -qb.z, -qb.w⟩ t) qb
          = -(qdot (nlerpForm qa ⟨-qb.x, -qb.y, -qb.z, -qb.w⟩ t)
              ⟨-qb.x, -qb.y, -qb.z, -qb.w⟩)
        from by rw [qdot_neg_right]; ring, abs_neg, habsE]
      have hle := le_abs_self
        (qdot (nlerpForm qa ⟨-qb.x, -qb.y, -qb.z, -qb.w⟩ t) ⟨-qb.x, -qb.y, -qb.z, -qb.w⟩)
      linarith
    · rw [slerpQ_eq_main_neg qa qb t h0 h1 hsgn h1le heps]
      obtain ⟨hbd, hu⟩ := mainForm_bound qa ⟨-qb.x, -qb.y, -qb.z, -qb.w⟩
        (-(qa.w * qb.w + qa.x * qb.x + qa.y * qb.y + qa.z * qb.z)) t
        ha hqcqc hqaqc hc0' hc1' ht0 ht1
      refine ⟨?_, hu⟩
      unfold distQ
      rw [show qdot (mainForm qa ⟨-qb.x, -qb.y, -qb.z, -qb.w⟩
            (-(qa.w * qb.w + qa.x * qb.x + qa.y * qb.y + qa.z * qb.z)) t) qb
          = -(qdot (mainForm qa ⟨-qb.x, -qb.y, -qb.z, -qb.w⟩
              (-(qa.w * qb.w + qa.x * qb.x + qa.y * qb.y + qa.z * qb.z)) t)
              ⟨-qb.x, -qb.y, -qb.z, -qb.w⟩)
        from by rw [qdot_neg_right]; ring, abs_neg, habsE]
      have hle := le_abs_self
        (qdot (mainForm qa ⟨-qb.x, -qb.y, -qb.z, -qb.w⟩
          (-(qa.w * qb.w + qa.x * qb.x + qa.y * qb.y + qa.z * qb.z)) t)
          ⟨-qb.x, -qb.y, -qb.z, -qb.w⟩)
      linarith
  · -- positive sign: qc = qb
    rw [if_neg hsgn] at h1le
    have hc0' : (0:ℝ) ≤ qa.w * qb.w + qa.x * qb.x + qa.y * qb.y + qa.z * qb.z :=
      not_lt.mp hsgn
    have hc1' : qa.w * qb.w + qa.x * qb.x + qa.y * qb.y + qa.z * qb.z < 1 :=
      not_le.mp h1le
    have habsE : |qdot qa qb|
        = qa.w * qb.w + qa.x * qb.x + qa.y * qb.y + qa.z * qb.z := by
      rw [← hE, abs_of_nonneg hc0']
    by_cases heps : 1 - (qa.w * qb.w + qa.x * qb.x + qa.y * qb.y + qa.z * qb.z)
        * (qa.w * qb.w + qa.x * qb.x + qa.y * qb.y + qa.z * qb.z) ≤ (2 : ℝ) ^ (-52 : ℤ)
    · rw [slerpQ_eq_nlerp_pos qa qb t h0 h1 hsgn h1le heps]
      obtain ⟨hbd, hu⟩ := nlerpForm_bound qa qb
        (qa.w * qb.w + qa.x * qb.x + qa.y * qb.y + qa.z * qb.z) t
        ha hb hE.symm hc0' hc1'.le ht0 ht1
      refine ⟨?_, hu⟩
      unfold distQ
      rw [habsE]
      have hle := le_abs_self (qdot (nlerpForm qa qb t) qb)
      linarith
    · rw [slerpQ_eq_main_pos qa qb t h0 h1 hsgn h1le heps]
      obtain ⟨hbd, hu⟩ := mainForm_bound qa qb
        (qa.w * qb.w + qa.x * qb.x + qa.y * qb.y + qa.z * qb.z) t
        ha hb hE.symm hc0' hc1' ht0 ht1
      refine ⟨?_, hu⟩
      unfold distQ
      rw [habsE]
      have hle := le_abs_self (qdot (mainForm qa qb
        (qa.w * qb.w + qa.x * qb.x + qa.y * qb.y + qa.z * qb.z) t) qb)
      linarith

/-- Folding one slerp frame per entry of a list of interpolation factors. -/
def iterSlerp (target : Quat) : List ℝ → Quat → Quat
  | [], q => q
  | a :: rest, q => iterSlerp target rest (slerpQ q target a)

theorem iterSlerp_unit (target : Quat) (hb : qdot target target = 1)
    (ds : List ℝ) (q : Quat) (ha : qdot q q = 1)
    (hds : ∀ a ∈ ds, 0 ≤ a ∧ a ≤ 1) :
    qdot (iterSlerp target ds q) (iterSlerp target ds q) = 1 := by
  induction ds generalizing q with
  | nil => exact ha
  | cons a rest ih =>
    have haa := hds a (List.mem_cons_self a rest)
    exact ih (slerpQ q target a)
      ((slerp_step q target a ha hb haa.1 haa.2).2)
      (fun x hx => hds x (List.mem_cons_of_mem a hx))

theorem iterSlerp_geom_bound (target : Quat) (hb : qdot target target = 1)
    (lo : ℝ) (hlo0 : 0 ≤ lo) (hlo1 : lo ≤ 1) (ds : List ℝ) (q : Quat)
    (ha : qdot q q = 1) (hds : ∀ a ∈ ds, lo ≤ a ∧ a ≤ 1) :
    distQ (iterSlerp target ds q) target ≤ (1 - lo) ^ ds.length * distQ q target := by
  induction ds generalizing q with
  | nil => simp [iterSlerp]
  | cons a rest ih =>
    have haa := hds a (List.mem_cons_self a rest)
    have ha0 : 0 ≤ a := le_trans hlo0 haa.1
    have hstep := (slerp_step q target a ha hb ha0 haa.2).1
    have hunit := (slerp_step q target a ha hb ha0 haa.2).2
    have hcontract : distQ (slerpQ q target a) target ≤ (1 - lo) * distQ q target := by
      have hd0 := distQ_nonneg q target ha hb
      nlinarith [hstep, haa.1]
    calc distQ (iterSlerp target (a :: rest) q) target
        = distQ (iterSlerp target rest (slerpQ q target a)) target := rfl
      _ ≤ (1 - lo) ^ rest.length * distQ (slerpQ q target a) target :=
          ih (slerpQ q target a) hunit (fun x hx => hds x (List.mem_cons_of_mem a hx))
      _ ≤ (1 - lo) ^ rest.length * ((1 - lo) * distQ q target) :=
          mul_le_mul_of_nonneg_left hcontract (pow_nonneg (by linarith) _)
      _ = (1 - lo) ^ (a :: rest).length * distQ q target := by
          rw [List.length_cons, pow_succ]
          ring

/-- C8 counterexample: one detail-mode frame with `delta = 1` (factor
`1 · 8 = 8`) moves `x = 1` to `x = -7`, multiplying the distance to the target
by 7 — repeated interpolation steps can increase the distance to the target. -/
theorem interpolation_divergence_cex :
    dist1 (lerpV ⟨1, 0, 0⟩ ⟨0, 0, 0⟩ (1 * lerpSpeed true false)) ⟨0, 0, 0⟩
      > dist1 ⟨1, 0, 0⟩ ⟨0, 0, 0⟩ := by
  simp only [dist1, lerpV, lerpSpeed, Bool.true_or, if_true]
  norm_num

/-- C8 amended: provided every frame's factor `rate·delta` lies in `[0, 1]`
(the regime the spec's clamp would enforce), each interpolation step is a
contraction of the live pose toward the target: the distance of the position
(and, by the same vector lerp, the scale) to a constant target never
increases, the rotation's angular misalignment `1 - |⟨q, target⟩|` never
increases for unit quaternions through every branch of the slerp, any
sequence of such frames never increases either quantity, and when the
factors are additionally bounded below by some `lo > 0`, both components
converge: for any `ε > 0` there is a frame count after which the positional
distance and the angular misalignment are below `ε`. -/
theorem interpolation_contraction_amended :
    (∀ (p target : Vec3) (a : ℝ), 0 ≤ a → a ≤ 1 →
      dist1 (lerpV p target a) target ≤ dist1 p target) ∧
    (∀ (target p : Vec3) (ds : List ℝ), (∀ a ∈ ds, 0 ≤ a ∧ a ≤ 1) →
      dist1 (iterLerp target ds p) target ≤ dist1 p target) ∧
    (∀ (target p : Vec3) (lo ε : ℝ), 0 < lo → lo ≤ 1 → 0 < ε →
      ∃ N : ℕ, ∀ ds : List ℝ, (∀ a ∈ ds, lo ≤ a ∧ a ≤ 1) → N ≤ ds.length →
        dist1 (iterLerp target ds p) target < ε) ∧
    (∀ (q target : Quat) (a : ℝ), qdot q q = 1 → qdot target target = 1 →
      0 ≤ a → a ≤ 1 → distQ (slerpQ q target a) target ≤ distQ q target) ∧
    (∀ (target q : Quat) (ds : List ℝ), qdot q q = 1 → qdot target target = 1 →
      (∀ a ∈ ds, 0 ≤ a ∧ a ≤ 1) →
      distQ (iterSlerp target ds q) target ≤ distQ q target) ∧
    (∀ (target q : Quat) (lo ε : ℝ), qdot q q = 1 → qdot target target = 1 →
      0 < lo → lo ≤ 1 → 0 < ε →
      ∃ N : ℕ, ∀ ds : List ℝ, (∀ a ∈ ds, lo ≤ a ∧ a ≤ 1) → N ≤ ds.length →
        distQ (iterSlerp target ds q) target < ε) := by
  refine ⟨?_, ?_, ?_, ?_, ?_, ?_⟩
  · intro p target a ha0 ha1
    rw [dist1_lerpV, abs_of_nonneg (by linarith)]
    nlinarith [dist1_nonneg p target]
  · intro target p ds hds
    have h := iterLerp_geom_bound target p 0 (by norm_num) ds hds
    have hpow : (1 - 0 : ℝ) ^ ds.length = 1 := by norm_num
    rw [hpow, one_mul] at h
    exact h
  · intro target p lo ε hlo0 hlo1 hε
    by_cases hd : dist1 p target = 0
    · refine ⟨0, fun ds hds _ => ?_⟩
      have h := iterLerp_geom_bound target p lo hlo1 ds hds
      rw [hd, mul_zero] at h
      exact lt_of_le_of_lt h hε
    · have hdpos : 0 < dist1 p target :=
        lt_of_le_of_ne (dist1_nonneg p target) (Ne.symm hd)
      obtain ⟨N, hN⟩ := exists_pow_lt_of_lt_one
        (div_pos hε hdpos) (show (1 : ℝ) - lo < 1 by linarith)
      refine ⟨N, fun ds hds hlen => ?_⟩
      have h := iterLerp_geom_bound target p lo hlo1 ds hds
      have hmono : (1 - lo : ℝ) ^ ds.length ≤ (1 - lo) ^ N :=
        pow_le_pow_of_le_one (by linarith) (by linarith) hlen
      calc dist1 (iterLerp target ds p) target
          ≤ (1 - lo) ^ ds.length * dist1 p target := h
        _ ≤ (1 - lo) ^ N * dist1 p target :=
            mul_le_mul_of_nonneg_right hmono (dist1_nonneg p target)
        _ < (ε / dist1 p target) * dist1 p target :=
            (mul_lt_mul_of_pos_right hN hdpos)
        _ = ε := div_mul_cancel₀ ε (ne_of_gt hdpos)
  · intro q target a hq ht ha0 ha1
    have hstep := (slerp_step q target a hq ht ha0 ha1).1
    nlinarith [distQ_nonneg q target hq ht]
  · intro target q ds hq ht hds
    have h := iterSlerp_geom_bound target ht 0 le_rfl (by norm_num) ds q hq hds
    have hpow : (1 - 0 : ℝ) ^ ds.length = 1 := by norm_num
    rw [hpow, one_mul] at h
    exact h
  · intro target q lo ε hq ht hlo0 hlo1 hε
    by_cases hd : distQ q target = 0
    · refine ⟨0, fun ds hds _ => ?_⟩
      have h := iterSlerp_geom_bound target ht lo hlo0.le hlo1 ds q hq hds
      rw [hd, mul_zero] at h
      exact lt_of_le_of_lt h hε
    · have hdpos : 0 < distQ q target :=
        lt_of_le_of_ne (distQ_nonneg q target hq ht) (Ne.symm hd)
      obtain ⟨N, hN⟩ := exists_pow_lt_of_lt_one
        (div_pos hε hdpos) (show (1 : ℝ) - lo < 1 by linarith)
      refine ⟨N, fun ds hds hlen => ?_⟩
      have h := iterSlerp_geom_bound target ht lo hlo0.le hlo1 ds q hq hds
      have hmono : (1 - lo : ℝ) ^ ds.length ≤ (1 - lo) ^ N :=
        pow_le_pow_of_le_one (by linarith) (by linarith) hlen
      calc distQ (iterSlerp target ds q) target
          ≤ (1 - lo) ^ ds.length * distQ q target := h
        _ ≤ (1 - lo) ^ N * distQ q target :=
            mul_le_mul_of_nonneg_right hmono (distQ_nonneg q target hq ht)
        _ < (ε / distQ q target) * distQ q target :=
            (mul_lt_mul_of_pos_right hN hdpos)
        _ = ε := div_mul_cancel₀ ε (ne_of_gt hdpos)

/-- Witness for C8 (amended): a half-strength frame (`alpha = 1/2`) does not
increase the distance from `x = 1` to the origin target, nor the angular
misalignment of the identity orientation to the unit target `⟨1,0,0,0⟩`. -/
theorem interpolation_contraction_amended_witness :
    0 ≤ (1 / 2 : ℝ) ∧ (1 / 2 : ℝ) ≤ 1 ∧
    dist1 (lerpV ⟨1, 0, 0⟩ ⟨0, 0, 0⟩ (1 / 2)) ⟨0, 0, 0⟩ ≤ dist1 ⟨1, 0, 0⟩ ⟨0, 0, 0⟩ ∧
    qdot (⟨0, 0, 0, 1⟩ : Quat) ⟨0, 0, 0, 1⟩ = 1 ∧
    qdot (⟨1, 0, 0, 0⟩ : Quat) ⟨1, 0, 0, 0⟩ = 1 ∧
    distQ (slerpQ ⟨0, 0, 0, 1⟩ ⟨1, 0, 0, 0⟩ (1 / 2)) ⟨1, 0, 0, 0⟩
      ≤ distQ ⟨0, 0, 0, 1⟩ ⟨1, 0, 0, 0⟩ :=
  ⟨by norm_num, by norm_num,
   interpolation_contraction_amended.1 ⟨1, 0, 0⟩ ⟨0, 0, 0⟩ (1 / 2)
     (by norm_num) (by norm_num),
   by norm_num [qdot], by norm_num [qdot],
   interpolation_contraction_amended.2.2.2.1 ⟨0, 0, 0, 1⟩ ⟨1, 0, 0, 0⟩ (1 / 2)
     (by norm_num [qdot]) (by norm_num [qdot]) (by norm_num) (by norm_num)⟩

/-! ## Claim theorems (C4): snow wrap -/

theorem glslMod_bounds (x y : ℝ) (hy : 0 < y) : 0 ≤ glslMod x y ∧ glslMod x y < y := by
  unfold glslMod
  have h1 : (⌊x / y⌋ : ℝ) ≤ x / y := Int.floor_le _
  have h2 : x / y - 1 < (⌊x / y⌋ : ℝ) := Int.sub_one_lt_floor _
  have h4 : y * (x / y) = x := by field_simp
  have h3 : y * (⌊x / y⌋ : ℝ) ≤ y * (x / y) := mul_le_mul_of_nonneg_left h1 hy.le
  have h5 : y * (x / y - 1) < y * (⌊x / y⌋ : ℝ) := mul_lt_mul_of_pos_left h2 hy
  have h6 : y * (x / y - 1) = x - y := by
    rw [mul_sub, h4]
    ring
  exact ⟨by linarith, by linarith⟩

theorem sin_ten_ne_zero : Real.sin 10 ≠ 0 := by
  intro hzero
  rw [Real.sin_eq_zero_iff] at hzero
  obtain ⟨n, hn⟩ := hzero
  have hn0 : (n : ℝ) ≠ 0 := by
    intro h0
    rw [h0, zero_mul] at hn
    norm_num at hn
  refine irrational_pi ⟨(10 : ℚ) / (n : ℚ), ?_⟩
  push_cast
  rw [eq_comm, eq_div_iff hn0, mul_comm]
  exact hn

theorem cos_fifteen_ne_zero : Real.cos 15 ≠ 0 := by
  intro hzero
  rw [Real.cos_eq_zero_iff] at hzero
  obtain ⟨k, hk⟩ := hzero
  have hk0 : (2 * (k : ℝ) + 1) ≠ 0 := by
    intro h0
    have h0' : (2 * k + 1 : ℤ) = 0 := by exact_mod_cast h0
    omega
  refine irrational_pi ⟨(30 : ℚ) / (2 * (k : ℚ) + 1), ?_⟩
  push_cast
  rw [eq_comm, eq_div_iff hk0]
  linear_combination (-2 : ℝ) * hk

/-- C4 counterexample: for the particle with `aRandom = 1`, initial `y = 0`,
`uSpeed = 2` and `uHeight = 40`, the wrapped vertical position passes from
`-19` (near the bottom) at `t = 9.5` to `19` (near the top) at `t = 10.5` —
a wrap — yet at the wrap time `t = 10` the horizontal offset the shader
computes at the bottom boundary (`y = -20`) differs from the one at the top
boundary (`y = 20`): the wind sinusoid reads the wrapped `y`, whose jump of
40 shifts the sine argument by 20, which is not a period, so the horizontal
position jumps across the wrap. -/
theorem snow_wrap_cex :
    snowNewY 0 (19 / 2) 2 1 40 = -19 ∧
    snowNewY 0 (21 / 2) 2 1 40 = 19 ∧
    snowX 0 10 1 20 ≠ snowX 0 10 1 (-20) := by
  refine ⟨?_, ?_, ?_⟩
  · unfold snowNewY snowFallOffset glslMod
    norm_num
  · unfold snowNewY snowFallOffset glslMod
    norm_num
  · intro hcontra
    unfold snowX at hcontra
    have h20 : (10 * 0.5 + 20 * 0.5 + 1 * 10 : ℝ) = 25 := by norm_num
    have h5 : (10 * 0.5 + (-20) * 0.5 + 1 * 10 : ℝ) = 5 := by norm_num
    rw [h20, h5] at hcontra
    have hdiff : Real.sin 25 - Real.sin 5 = 0 := by linarith
    rw [Real.sin_sub_sin] at hdiff
    have h1 : ((25 : ℝ) - 5) / 2 = 10 := by norm_num
    have h2 : ((25 : ℝ) + 5) / 2 = 15 := by norm_num
    rw [h1, h2] at hdiff
    rcases mul_eq_zero.mp hdiff with h | h
    · rcases mul_eq_zero.mp h with h' | h'
      · norm_num at h'
      · exact sin_ten_ne_zero h'
    · exact cos_fifteen_ne_zero h

/-- C4 amended: for positive vertical extent `h`, the wrapped vertical
position `mod(newY - bottom, yRange) + bottom` always lies within
`[-h/2, h/2]` (in fact below `h/2` strictly); the horizontal displacement is
the wind sinusoid evaluated at the wrapped vertical position, so it carries
no continuity guarantee across the wrap instant (see the counterexample). -/
theorem snow_wrap_amended (y0 t speed r h : ℝ) (hh : 0 < h) :
    -(h / 2) ≤ snowNewY y0 t speed r h ∧ snowNewY y0 t speed r h < h / 2 := by
  unfold snowNewY
  have hb := glslMod_bounds (y0 - snowFallOffset t speed r - -h / 2) h hh
  constructor
  · have := hb.1
    linarith
  · have := hb.2
    linarith

/-- Witness for C4 (amended) at `h = 40`. -/
theorem snow_wrap_amended_witness :
    0 < (40 : ℝ) ∧
    (-(40 / 2 : ℝ) ≤ snowNewY 0 0 2 1 40 ∧ snowNewY 0 0 2 1 40 < 40 / 2) :=
  ⟨by norm_num, snow_wrap_amended 0 0 2 1 40 (by norm_num)⟩

end ChristmasTree
